/-
Verification development for generate_property_maps.py.

Each Python function relevant to the verified properties is shallowly
embedded as a Lean definition:
  * pure numeric code (bounds padding, zoom choice, Mercator projection,
    centroid, scale-bar selection) is translated over the real numbers;
  * the tile cache / fetcher is translated as an explicit state function
    over an abstract byte and image type, with the cache as a key-indexed
    partial map, the network as an oracle, and an uncaught Python
    exception modelled as a `none` result;
  * Python float special values matter only in collect_bounds, where they
    are modelled by an explicit type with IEEE comparison semantics.
-/
import Mathlib

open Real

/-! ## Tile cache / fetcher (`load_tile`, source lines 235-262)

The cache directory is modelled as a partial map from tile keys to raw
bytes (`os.makedirs` only ensures the directory exists and touches no tile
entry, so it has no counterpart in the state).  The network and the image
decoder (`urllib.request.urlopen` / `PIL.Image.open(...).convert("RGB")`)
are oracles: `none` means the fetch raised (timeout, transport error) or
the bytes failed to decode.  A tile value is either the plain neutral-gray
placeholder, the diagonal-cross error placeholder (gray plus two diagonal
lines, a distinct image value), or a decoded image. -/

/-- Tile key `(z, x_wrapped, y)`; the Python cache file name `{z}_{x}_{y}.png`. -/
abbrev TileKey : Type := ℕ × ℤ × ℤ

/-- A raster tile as returned by `load_tile`: the neutral-gray placeholder,
the diagonal-cross error placeholder, or a decoded image. -/
inductive Tile (ι : Type) where
  | gray
  | errorCross
  | img (i : ι)
deriving DecidableEq

/-- Environment of `load_tile`: the network oracle (`none` = the HTTP fetch
raised) and the image decoder (`none` = the bytes do not decode as an image). -/
structure TileEnv (β ι : Type) where
  net : TileKey → Option β
  decode : β → Option ι

/-- Result of one `load_tile` call: the returned tile (`none` models an
uncaught Python exception), the cache state after the call, and the list of
network requests issued. -/
structure LoadOutcome (β ι : Type) where
  result : Option (Tile ι)
  cache : TileKey → Option β
  netCalls : List TileKey

/-- Embedding of `load_tile(z, x, y)` (source lines 235-262).

Mirrors the source statement by statement: the out-of-range `y` check
returns the plain gray tile; `x` is wrapped modulo `2 ** z` (Python `%` on a
positive modulus equals `Int.emod`); a cache hit decodes the stored bytes
*outside* any `try` block, so a decode failure there is an uncaught
exception; on a cache miss the fetched bytes are written to the cache
*before* the decode attempt, and any exception inside the `try` block
(fetch failure or decode failure) yields the diagonal-cross error tile. -/
def load_tile {β ι : Type} (env : TileEnv β ι) (cache : TileKey → Option β)
    (z : ℕ) (x y : ℤ) : LoadOutcome β ι :=
  let maxIdx : ℤ := 2 ^ z - 1
  if y < 0 ∨ y > maxIdx then
    ⟨some Tile.gray, cache, []⟩
  else
    let xWrapped : ℤ := x % (2 ^ z : ℤ)
    let key : TileKey := (z, xWrapped, y)
    match cache key with
    | some bs =>
        match env.decode bs with
        | some i => ⟨some (Tile.img i), cache, []⟩
        | none => ⟨none, cache, []⟩
    | none =>
        match env.net key with
        | none => ⟨some Tile.errorCross, cache, [key]⟩
        | some data =>
            let cache2 : TileKey → Option β := fun k => if k = key then some data else cache k
            match env.decode data with
            | some i => ⟨some (Tile.img i), cache2, [key]⟩
            | none => ⟨some Tile.errorCross, cache2, [key]⟩

/-- A concrete environment in which the server answers every request with
bytes that do not decode as an image: bytes are `Bool`, images are `Unit`,
the network always returns `false`, and only `true` decodes. -/
def badTileEnv : TileEnv Bool Unit :=
  ⟨fun _ => some false, fun b => if b then some () else none⟩

/-- C4: for `y < 0` or `y > 2^z - 1`, `load_tile` returns the fixed
neutral-gray placeholder tile, leaves the cache untouched, issues no network
call, and its result is the same for every cache and network state (so no
cache lookup or network access can influence it). -/
theorem load_tile_out_of_range {β ι : Type} (env : TileEnv β ι)
    (cache : TileKey → Option β) (z : ℕ) (x y : ℤ)
    (h : y < 0 ∨ y > 2 ^ z - 1) :
    load_tile env cache z x y = ⟨some Tile.gray, cache, []⟩ := by
  unfold load_tile
  exact if_pos h

/-- C4 witness: the out-of-range theorem applied at `z = 10`, `y = -1` with a
concrete empty cache and a network oracle that is never consulted. -/
theorem load_tile_out_of_range_witness :
    ((-1 : ℤ) < 0 ∨ (-1 : ℤ) > 2 ^ 10 - 1) ∧
      load_tile badTileEnv (fun _ => none) 10 7 (-1)
        = ⟨some Tile.gray, fun _ => none, []⟩ :=
  ⟨Or.inl (by decide),
    load_tile_out_of_range badTileEnv (fun _ => none) 10 7 (-1) (Or.inl (by decide))⟩

/-- C1: evaluation of `load_tile` at the failing input.  Starting from an
empty cache, a fetch whose bytes fail to decode returns the diagonal-cross
error tile but *does* write the fetched bytes to the cache (the write
precedes the decode attempt), contradicting the claim that nothing is
written on a decode error; the next call with the same key is a cache hit,
not a network retry. -/
theorem load_tile_decode_failure_writes_cache :
    (load_tile badTileEnv (fun _ => none) 10 0 0).result = some Tile.errorCross ∧
      (load_tile badTileEnv (fun _ => none) 10 0 0).cache (10, 0, 0) = some false ∧
      (load_tile badTileEnv (fun _ => none) 10 0 0).netCalls = [(10, 0, 0)] :=
  ⟨rfl, rfl, rfl⟩

/-- C2: evaluation of `load_tile` at the failing input.  With a cache entry
whose bytes do not decode as an image (exactly the state the decode-failure
path of C1 leaves behind), the cache-hit decode happens outside the
`try` block, so `load_tile` raises instead of returning a tile. -/
theorem load_tile_raises_on_corrupt_cache :
    (load_tile badTileEnv
        (fun k => if k = ((10 : ℕ), (0 : ℤ), (0 : ℤ)) then some false else none)
        10 0 0).result = none :=
  rfl

/-! ## Ring extraction (`polygon_outer_rings`, source lines 108-127)

A GeoJSON geometry dictionary, as consumed by the function, is either a
Polygon (coordinates: a list of rings), a MultiPolygon (coordinates: a list
of polygons), or anything else (any other `type` value, including a missing
one; `coordinates` is then never inspected).  Coordinates are pairs; the
`float(...)` conversions are the identity in this model. -/

/-- A geometry dictionary as read by `polygon_outer_rings`: only the
Polygon / MultiPolygon distinction and the coordinate payload matter. -/
inductive Geometry (α : Type) where
  | polygon (coords : List (List (α × α)))
  | multiPolygon (coords : List (List (List (α × α))))
  | other
deriving DecidableEq

/-- The `for poly in polys` loop body of `polygon_outer_rings`: an empty
sub-polygon is skipped (`if not poly: continue`), otherwise its first ring
is kept when it has at least 3 vertices (`if len(ring) >= 3`). -/
def rings_loop {α : Type} : List (List (List (α × α))) → List (List (α × α))
  | [] => []
  | poly :: rest =>
    match poly with
    | [] => rings_loop rest
    | outer :: _ =>
        if 3 ≤ outer.length then outer :: rings_loop rest else rings_loop rest

/-- Embedding of `polygon_outer_rings(geometry)` (source lines 108-127):
a Polygon contributes the singleton list `[coords]`, a MultiPolygon
contributes `coords`, and any other geometry type returns `[]` before the
loop runs. -/
def polygon_outer_rings {α : Type} : Geometry α → List (List (α × α))
  | Geometry.polygon coords => rings_loop [coords]
  | Geometry.multiPolygon coords => rings_loop coords
  | Geometry.other => []

/-- The decision made for a single sub-polygon, as a filterMap step. -/
def keep_outer {α : Type} (poly : List (List (α × α))) : Option (List (α × α)) :=
  match poly with
  | [] => none
  | outer :: _ => if 3 ≤ outer.length then some outer else none

lemma rings_loop_eq_filterMap {α : Type} (polys : List (List (List (α × α)))) :
    rings_loop polys = polys.filterMap keep_outer := by
  induction polys with
  | nil => rfl
  | cons poly rest ih =>
      cases poly with
      | nil => simpa [rings_loop, keep_outer] using ih
      | cons outer tail =>
          by_cases h : 3 ≤ outer.length <;>
            simp [rings_loop, keep_outer, h, ih]

/-- C10: `polygon_outer_rings` is a total function; a geometry whose type is
neither Polygon nor MultiPolygon yields `[]` (no unsupported-geometry
error); every returned ring has at least 3 vertices; and for both supported
geometry types the result is exactly the sub-polygon list filtered by the
drop rule (empty sub-polygons and first rings with fewer than 3 points are
silently dropped, all other first rings are kept in order). -/
theorem polygon_outer_rings_spec {α : Type} :
    (polygon_outer_rings (Geometry.other (α := α)) = []) ∧
      (∀ g : Geometry α, ∀ r ∈ polygon_outer_rings g, 3 ≤ r.length) ∧
      (∀ coords : List (List (α × α)),
        polygon_outer_rings (Geometry.polygon coords) = [coords].filterMap keep_outer) ∧
      (∀ coords : List (List (List (α × α))),
        polygon_outer_rings (Geometry.multiPolygon coords) = coords.filterMap keep_outer) := by
  refine ⟨rfl, ?_, ?_, ?_⟩
  · intro g r hr
    have hmem : ∀ polys : List (List (List (α × α))), r ∈ rings_loop polys → 3 ≤ r.length := by
      intro polys
      rw [rings_loop_eq_filterMap]
      intro hmem
      rcases List.mem_filterMap.mp hmem with ⟨poly, _, hkeep⟩
      cases poly with
      | nil => simp [keep_outer] at hkeep
      | cons outer tail =>
          by_cases h : 3 ≤ outer.length
          · simp only [keep_outer, if_pos h, Option.some.injEq] at hkeep
            exact hkeep ▸ h
          · simp [keep_outer, h] at hkeep
    cases g with
    | polygon coords => exact hmem [coords] hr
    | multiPolygon coords => exact hmem coords hr
    | other => simp [polygon_outer_rings] at hr
  · intro coords; exact rings_loop_eq_filterMap [coords]
  · intro coords; exact rings_loop_eq_filterMap coords

/-- C10 witness: the ring-length bound of the theorem applied to a concrete
MultiPolygon holding one empty sub-polygon, one dropped two-point ring and
one kept triangle. -/
theorem polygon_outer_rings_spec_witness :
    (([(0, 0), (1, 0), (0, 1)] : List (ℚ × ℚ)) ∈
        polygon_outer_rings (Geometry.multiPolygon
          [[], [[(5, 5), (6, 6)]], [[(0, 0), (1, 0), (0, 1)]]]) ) ∧
      3 ≤ ([(0, 0), (1, 0), (0, 1)] : List (ℚ × ℚ)).length :=
  ⟨by decide,
    (polygon_outer_rings_spec (α := ℚ)).2.1
      (Geometry.multiPolygon [[], [[(5, 5), (6, 6)]], [[(0, 0), (1, 0), (0, 1)]]])
      [(0, 0), (1, 0), (0, 1)] (by decide)⟩

/-! ## Bounds collection (`collect_bounds`, source lines 134-151)

`collect_bounds` starts its running extrema at `math.inf` / `-math.inf` and
feeds them through Python's two-argument `min` / `max`, so IEEE special
values matter: a Python float is modelled as a rational or one of
`inf`, `-inf`, `nan`, with `<` returning `False` whenever `nan` is
involved.  Python's `min(x, y)` returns `y` exactly when `y < x`, and
`max(x, y)` returns `y` exactly when `y > x`. -/

/-- A Python float value: finite (exact rational), positive or negative
infinity, or NaN. -/
inductive PyFloat where
  | fin (q : ℚ)
  | inf
  | ninf
  | nan
deriving DecidableEq

/-- IEEE `<` on Python floats: any comparison involving NaN is false. -/
def pylt : PyFloat → PyFloat → Bool
  | PyFloat.fin a, PyFloat.fin b => decide (a < b)
  | PyFloat.fin _, PyFloat.inf => true
  | PyFloat.ninf, PyFloat.fin _ => true
  | PyFloat.ninf, PyFloat.inf => true
  | _, _ => false

/-- Python's builtin `min(x, y)`: keeps `x` unless `y < x`. -/
def pymin (x y : PyFloat) : PyFloat := if pylt y x then y else x

/-- Python's builtin `max(x, y)`: keeps `x` unless `y > x`. -/
def pymax (x y : PyFloat) : PyFloat := if pylt x y then y else x

/-- `math.isfinite`. -/
def pyIsFinite : PyFloat → Bool
  | PyFloat.fin _ => true
  | _ => false

/-- A feature item as consumed by `collect_bounds` (only its `"geometry"`
entry is read). -/
structure ParcelFeature where
  geometry : Geometry PyFloat
deriving DecidableEq

/-- One iteration of the innermost loop of `collect_bounds`: update the
running `(min_lon, max_lon, min_lat, max_lat)` with one `(lon, lat)` vertex. -/
def bounds_step (acc : PyFloat × PyFloat × PyFloat × PyFloat)
    (v : PyFloat × PyFloat) : PyFloat × PyFloat × PyFloat × PyFloat :=
  (pymin acc.1 v.1, pymax acc.2.1 v.1, pymin acc.2.2.1 v.2, pymax acc.2.2.2 v.2)

/-- Embedding of `collect_bounds(feature_items)` (source lines 134-151):
fold `bounds_step` over every vertex of every outer ring of every feature,
starting from `(inf, -inf, inf, -inf)`; raise `RuntimeError` (modelled as
`Except.error`) when the final `min_lon` is not finite — that is the only
check the source performs — and otherwise return
`(min_lon, min_lat, max_lon, max_lat)`. -/
def collect_bounds (feature_items : List ParcelFeature) :
    Except String (PyFloat × PyFloat × PyFloat × PyFloat) :=
  let acc :=
    feature_items.foldl
      (fun acc item =>
        (polygon_outer_rings item.geometry).foldl
          (fun acc ring => ring.foldl bounds_step acc) acc)
      (PyFloat.inf, PyFloat.ninf, PyFloat.inf, PyFloat.ninf)
  if pyIsFinite acc.1 then Except.ok (acc.1, acc.2.2.1, acc.2.1, acc.2.2.2)
  else Except.error "No geometry bounds available"

/-- Every vertex of every outer ring of every feature, flattened in
iteration order. -/
def all_vertices (feature_items : List ParcelFeature) : List (PyFloat × PyFloat) :=
  (feature_items.map (fun item => (polygon_outer_rings item.geometry).flatten)).flatten

/-- All longitude values scanned by `collect_bounds`, in order. -/
def all_lons (feature_items : List ParcelFeature) : List PyFloat :=
  (all_vertices feature_items).map Prod.fst

/-- All latitude values scanned by `collect_bounds`, in order. -/
def all_lats (feature_items : List ParcelFeature) : List PyFloat :=
  (all_vertices feature_items).map Prod.snd

/-- The exact failure condition of `collect_bounds`: the running minimum of
the longitudes is non-finite, i.e. every longitude is `inf` or `nan`
(vacuously so when no ring is present), or some longitude is `-inf`. -/
abbrev no_finite_lon (feature_items : List ParcelFeature) : Prop :=
  (∀ l ∈ all_lons feature_items, l = PyFloat.inf ∨ l = PyFloat.nan) ∨
    PyFloat.ninf ∈ all_lons feature_items

lemma foldl_foldl_flatten {A V : Type} (f : A → V → A) (rs : List (List V)) (acc : A) :
    rs.foldl (fun a r => r.foldl f a) acc = rs.flatten.foldl f acc := by
  induction rs generalizing acc with
  | nil => rfl
  | cons r rest ih => simp [List.foldl_append, ih]

lemma collect_fold_flatten (feature_items : List ParcelFeature)
    (acc : PyFloat × PyFloat × PyFloat × PyFloat) :
    feature_items.foldl
        (fun acc item =>
          (polygon_outer_rings item.geometry).foldl
            (fun acc ring => ring.foldl bounds_step acc) acc) acc
      = (all_vertices feature_items).foldl bounds_step acc := by
  induction feature_items generalizing acc with
  | nil => rfl
  | cons item rest ih =>
      simp only [List.foldl_cons, ih, all_vertices, List.map_cons, List.flatten_cons,
        List.foldl_append]
      rw [foldl_foldl_flatten]

lemma foldl_bounds_step_components (vs : List (PyFloat × PyFloat))
    (a b c d : PyFloat) :
    vs.foldl bounds_step (a, b, c, d) =
      ((vs.map Prod.fst).foldl pymin a, (vs.map Prod.fst).foldl pymax b,
       (vs.map Prod.snd).foldl pymin c, (vs.map Prod.snd).foldl pymax d) := by
  induction vs generalizing a b c d with
  | nil => rfl
  | cons v rest ih => simp [bounds_step, ih]

lemma pymin_ne_nan {x : PyFloat} (y : PyFloat) (hx : x ≠ PyFloat.nan) :
    pymin x y ≠ PyFloat.nan := by
  cases x <;> cases y <;> simp_all [pymin, pylt] <;> split_ifs <;> simp_all

lemma foldl_pymin_ne_nan (ls : List PyFloat) {acc : PyFloat} (hacc : acc ≠ PyFloat.nan) :
    ls.foldl pymin acc ≠ PyFloat.nan := by
  induction ls generalizing acc with
  | nil => exact hacc
  | cons l rest ih => exact ih (pymin_ne_nan l hacc)

lemma pymin_eq_ninf_iff {x : PyFloat} (y : PyFloat) (hx : x ≠ PyFloat.nan) :
    pymin x y = PyFloat.ninf ↔ x = PyFloat.ninf ∨ y = PyFloat.ninf := by
  cases x <;> cases y <;> simp_all [pymin, pylt] <;> split_ifs <;> simp_all

lemma pymin_eq_inf_iff {x : PyFloat} (y : PyFloat) (hx : x ≠ PyFloat.nan) :
    pymin x y = PyFloat.inf ↔ x = PyFloat.inf ∧ (y = PyFloat.inf ∨ y = PyFloat.nan) := by
  cases x <;> cases y <;> simp_all [pymin, pylt] <;> split_ifs <;> simp_all

lemma foldl_pymin_eq_ninf_iff (ls : List PyFloat) {acc : PyFloat}
    (hacc : acc ≠ PyFloat.nan) :
    ls.foldl pymin acc = PyFloat.ninf ↔ acc = PyFloat.ninf ∨ PyFloat.ninf ∈ ls := by
  induction ls generalizing acc with
  | nil => simp
  | cons l rest ih =>
      rw [List.foldl_cons, ih (pymin_ne_nan l hacc), pymin_eq_ninf_iff l hacc]
      simp [or_assoc]
      tauto

lemma foldl_pymin_eq_inf_iff (ls : List PyFloat) {acc : PyFloat}
    (hacc : acc ≠ PyFloat.nan) :
    ls.foldl pymin acc = PyFloat.inf ↔
      acc = PyFloat.inf ∧ ∀ l ∈ ls, l = PyFloat.inf ∨ l = PyFloat.nan := by
  induction ls generalizing acc with
  | nil => simp
  | cons l rest ih =>
      rw [List.foldl_cons, ih (pymin_ne_nan l hacc), pymin_eq_inf_iff l hacc]
      constructor
      · rintro ⟨⟨h1, h2⟩, h3⟩
        exact ⟨h1, by simpa [h2] using h3⟩
      · rintro ⟨h1, h2⟩
        exact ⟨⟨h1, h2 l (by simp)⟩, fun x hx => h2 x (by simp [hx])⟩

lemma pyIsFinite_false_iff {x : PyFloat} (hx : x ≠ PyFloat.nan) :
    pyIsFinite x = false ↔ x = PyFloat.inf ∨ x = PyFloat.ninf := by
  cases x <;> simp_all [pyIsFinite]

lemma collect_bounds_eq (feature_items : List ParcelFeature) :
    collect_bounds feature_items =
      if pyIsFinite ((all_lons feature_items).foldl pymin PyFloat.inf) then
        Except.ok ((all_lons feature_items).foldl pymin PyFloat.inf,
          (all_lats feature_items).foldl pymin PyFloat.inf,
          (all_lons feature_items).foldl pymax PyFloat.ninf,
          (all_lats feature_items).foldl pymax PyFloat.ninf)
      else Except.error "No geometry bounds available" := by
  unfold collect_bounds
  rw [collect_fold_flatten, foldl_bounds_step_components]
  rfl

/-- C8 (amended): `collect_bounds` fails with its `NoGeometry` error exactly
when the running minimum of the longitudes is non-finite — that is, when
every longitude is `+inf` or `NaN` (vacuously: when no ring is present at
all), or when some longitude is `-inf`; latitudes are never checked.  In
particular it fails on an empty feature list and when all coordinates are
non-finite.  When it does not fail, it returns the tracked
`(min-lon, min-lat, max-lon, max-lat)` folded over every vertex of every
outer ring of every feature, in scan order. -/
theorem collect_bounds_charac (feature_items : List ParcelFeature) :
    (collect_bounds feature_items = Except.error "No geometry bounds available" ↔
        no_finite_lon feature_items) ∧
      (¬ no_finite_lon feature_items →
        collect_bounds feature_items =
          Except.ok ((all_lons feature_items).foldl pymin PyFloat.inf,
            (all_lats feature_items).foldl pymin PyFloat.inf,
            (all_lons feature_items).foldl pymax PyFloat.ninf,
            (all_lats feature_items).foldl pymax PyFloat.ninf)) := by
  have hnn : (all_lons feature_items).foldl pymin PyFloat.inf ≠ PyFloat.nan :=
    foldl_pymin_ne_nan _ (by simp)
  have hiff : pyIsFinite ((all_lons feature_items).foldl pymin PyFloat.inf) = false ↔
      no_finite_lon feature_items := by
    rw [pyIsFinite_false_iff hnn,
      foldl_pymin_eq_inf_iff (all_lons feature_items) (by simp),
      foldl_pymin_eq_ninf_iff (all_lons feature_items) (by simp)]
    simp [no_finite_lon, or_comm]
  rw [collect_bounds_eq]
  rcases h : pyIsFinite ((all_lons feature_items).foldl pymin PyFloat.inf) with _ | _
  · rw [if_neg (by simp [h])]
    exact ⟨by simpa using hiff.mp h, fun hn => absurd (hiff.mp h) hn⟩
  · rw [if_pos (by simp [h])]
    constructor
    · simp only [reduceCtorEq, false_iff]
      intro hn
      rw [← hiff] at hn
      simp [h] at hn
    · intro _; rfl

/-- A feature whose single outer ring has every longitude equal to `+inf`
but all latitudes finite: some coordinate values are finite, yet
`collect_bounds` raises. -/
def infLonItems : List ParcelFeature :=
  [⟨Geometry.polygon [[(PyFloat.inf, PyFloat.fin 0), (PyFloat.inf, PyFloat.fin 1),
      (PyFloat.inf, PyFloat.fin 2)]]⟩]

/-- C8 counterexample: on a feature with one 3-vertex ring whose latitudes
are finite (so not all coordinate values are non-finite, and a ring is
present), `collect_bounds` nevertheless fails, because only the longitude
minimum is checked — refuting the claim that outside its two stated failure
conditions the function returns tracked bounds. -/
theorem collect_bounds_counterexample :
    collect_bounds infLonItems = Except.error "No geometry bounds available" ∧
      PyFloat.fin 1 ∈ all_lats infLonItems ∧
      PyFloat.fin 1 ≠ PyFloat.inf ∧ PyFloat.fin 1 ≠ PyFloat.ninf ∧
      PyFloat.fin 1 ≠ PyFloat.nan := by
  refine ⟨rfl, by decide, by decide, by decide, by decide⟩

/-- A feature list with one finite triangle ring. -/
def triangleItems : List ParcelFeature :=
  [⟨Geometry.polygon [[(PyFloat.fin 0, PyFloat.fin 3), (PyFloat.fin 2, PyFloat.fin 0),
      (PyFloat.fin 1, PyFloat.fin 7)]]⟩]

/-- C8 witness: the characterization applied to a concrete finite triangle,
discharging the no-failure hypothesis by computation. -/
theorem collect_bounds_charac_witness :
    ¬ no_finite_lon triangleItems ∧
      collect_bounds triangleItems =
        Except.ok ((all_lons triangleItems).foldl pymin PyFloat.inf,
          (all_lats triangleItems).foldl pymin PyFloat.inf,
          (all_lons triangleItems).foldl pymax PyFloat.ninf,
          (all_lats triangleItems).foldl pymax PyFloat.ninf) :=
  ⟨by decide, (collect_bounds_charac triangleItems).2 (by decide)⟩

/-! ## Bounds padding (`contextual_bounds`, source lines 154-175)

Pure arithmetic over Python floats, modelled over the reals.  A bounds
value is the 4-tuple `(min_lon, min_lat, max_lon, max_lat)`.  Python's
three-argument `max(a, b, c)` is the iterated binary maximum. -/

/-- A geographic bounding box `(min_lon, min_lat, max_lon, max_lat)`. -/
structure GeoBounds where
  min_lon : ℝ
  min_lat : ℝ
  max_lon : ℝ
  max_lat : ℝ

/-- Embedding of `contextual_bounds(bounds, padding_factor, min_span_lon,
min_span_lat)` (source lines 154-175): center of the input, per-axis base
span `max(raw_span, min_span, 1e-6)`, half extents
`base * (0.5 + padding_factor)`, re-centered output. -/
noncomputable def contextual_bounds (bounds : GeoBounds) (padding_factor : ℝ)
    (min_span_lon min_span_lat : ℝ) : GeoBounds :=
  let center_lon := (bounds.min_lon + bounds.max_lon) / 2
  let center_lat := (bounds.min_lat + bounds.max_lat) / 2
  let base_dx := max (max (bounds.max_lon - bounds.min_lon) min_span_lon) 1e-6
  let base_dy := max (max (bounds.max_lat - bounds.min_lat) min_span_lat) 1e-6
  let half_w := base_dx * (0.5 + padding_factor)
  let half_h := base_dy * (0.5 + padding_factor)
  ⟨center_lon - half_w, center_lat - half_h, center_lon + half_w, center_lat + half_h⟩

/-- C5 counterexample: a bounds with `min < max` on both axes but spans
below the `1e-6` floor is not returned unchanged by
`contextual_bounds(b, 0, 0, 0)`: the floor inflates it. -/
theorem contextual_bounds_p0_counterexample :
    contextual_bounds ⟨0, 0, 1e-7, 1e-7⟩ 0 0 0 ≠ ⟨0, 0, 1e-7, 1e-7⟩ ∧
      (0 : ℝ) < 1e-7 := by
  constructor
  · intro h
    have h1 := congrArg GeoBounds.min_lon h
    have e1 : max (max ((1e-7 : ℝ) - 0) 0) 1e-6 = 1e-6 := by
      rw [max_eq_right] <;> norm_num
    simp only [contextual_bounds, e1] at h1
    norm_num at h1
  · norm_num

/-- C5 (amended): `contextual_bounds(b, 0, 0, 0)` returns exactly `b`
provided both raw spans are at least the `1e-6` floor (for smaller spans the
floor inflates the box, as the counterexample shows); and for every
`padding_factor p > 0` the output strictly contains `b` on all four sides
and has exactly the same center on both axes. -/
theorem contextual_bounds_padding (b : GeoBounds)
    (h1 : b.min_lon < b.max_lon) (h2 : b.min_lat < b.max_lat) :
    (1e-6 ≤ b.max_lon - b.min_lon → 1e-6 ≤ b.max_lat - b.min_lat →
        contextual_bounds b 0 0 0 = b) ∧
      ∀ p : ℝ, 0 < p →
        (contextual_bounds b p 0 0).min_lon < b.min_lon ∧
          (contextual_bounds b p 0 0).min_lat < b.min_lat ∧
          b.max_lon < (contextual_bounds b p 0 0).max_lon ∧
          b.max_lat < (contextual_bounds b p 0 0).max_lat ∧
          (contextual_bounds b p 0 0).min_lon + (contextual_bounds b p 0 0).max_lon
            = b.min_lon + b.max_lon ∧
          (contextual_bounds b p 0 0).min_lat + (contextual_bounds b p 0 0).max_lat
            = b.min_lat + b.max_lat := by
  obtain ⟨a1, a2, a3, a4⟩ := b
  simp only at h1 h2
  constructor
  · intro hs1 hs2
    simp only at hs1 hs2
    have e1 : max (max (a3 - a1) 0) 1e-6 = a3 - a1 := by
      rw [max_eq_left (le_trans hs1 (le_max_left _ _)), max_eq_left (by linarith)]
    have e2 : max (max (a4 - a2) 0) 1e-6 = a4 - a2 := by
      rw [max_eq_left (le_trans hs2 (le_max_left _ _)), max_eq_left (by linarith)]
    simp only [contextual_bounds, e1, e2, GeoBounds.mk.injEq]
    refine ⟨by ring, by ring, by ring, by ring⟩
  · intro p hp
    have hbx1 : a3 - a1 ≤ max (max (a3 - a1) 0) 1e-6 :=
      le_trans (le_max_left _ _) (le_max_left _ _)
    have hbx2 : (1e-6 : ℝ) ≤ max (max (a3 - a1) 0) 1e-6 := le_max_right _ _
    have hby1 : a4 - a2 ≤ max (max (a4 - a2) 0) 1e-6 :=
      le_trans (le_max_left _ _) (le_max_left _ _)
    have hby2 : (1e-6 : ℝ) ≤ max (max (a4 - a2) 0) 1e-6 := le_max_right _ _
    have hpx : 0 < max (max (a3 - a1) 0) 1e-6 * p :=
      mul_pos (lt_of_lt_of_le (by norm_num) hbx2) hp
    have hpy : 0 < max (max (a4 - a2) 0) 1e-6 * p :=
      mul_pos (lt_of_lt_of_le (by norm_num) hby2) hp
    have hrx : max (max (a3 - a1) 0) 1e-6 * (0.5 + p)
        = max (max (a3 - a1) 0) 1e-6 * 0.5 + max (max (a3 - a1) 0) 1e-6 * p := by ring
    have hry : max (max (a4 - a2) 0) 1e-6 * (0.5 + p)
        = max (max (a4 - a2) 0) 1e-6 * 0.5 + max (max (a4 - a2) 0) 1e-6 * p := by ring
    simp only [contextual_bounds]
    refine ⟨by nlinarith, by nlinarith, by nlinarith, by nlinarith, by ring, by ring⟩

/-- C5 witness: the amended theorem applied to the unit box with padding 1. -/
theorem contextual_bounds_padding_witness :
    ((0 : ℝ) < 1) ∧ (contextual_bounds ⟨0, 0, 1, 1⟩ 1 0 0).min_lon < 0 :=
  ⟨by norm_num,
    ((contextual_bounds_padding ⟨0, 0, 1, 1⟩ (by norm_num) (by norm_num)).2 1
      (by norm_num)).1⟩

/-- C9: for every input bounds with `min ≤ max` on each axis, every
`padding_factor ≥ 0` and arbitrary `min_span` arguments (including 0, and
including degenerate input with `min = max`), the output satisfies
`min < max` strictly on both axes, and each output half-span is floored at
`1e-6 * (0.5 + padding_factor)`. -/
theorem contextual_bounds_nondegenerate (b : GeoBounds) (p ms_lon ms_lat : ℝ)
    (hlon : b.min_lon ≤ b.max_lon) (hlat : b.min_lat ≤ b.max_lat) (hp : 0 ≤ p) :
    (contextual_bounds b p ms_lon ms_lat).min_lon
        < (contextual_bounds b p ms_lon ms_lat).max_lon ∧
      (contextual_bounds b p ms_lon ms_lat).min_lat
        < (contextual_bounds b p ms_lon ms_lat).max_lat ∧
      1e-6 * (0.5 + p) * 2 ≤
        (contextual_bounds b p ms_lon ms_lat).max_lon
          - (contextual_bounds b p ms_lon ms_lat).min_lon ∧
      1e-6 * (0.5 + p) * 2 ≤
        (contextual_bounds b p ms_lon ms_lat).max_lat
          - (contextual_bounds b p ms_lon ms_lat).min_lat := by
  obtain ⟨a1, a2, a3, a4⟩ := b
  have hbx2 : (1e-6 : ℝ) ≤ max (max (a3 - a1) ms_lon) 1e-6 := le_max_right _ _
  have hby2 : (1e-6 : ℝ) ≤ max (max (a4 - a2) ms_lat) 1e-6 := le_max_right _ _
  simp only [contextual_bounds]
  refine ⟨by nlinarith, by nlinarith, by nlinarith, by nlinarith⟩

/-- C9 witness: the theorem applied to fully degenerate input — a point
bounds, zero padding and zero minimum spans. -/
theorem contextual_bounds_nondegenerate_witness :
    (0 : ℝ) ≤ 0 ∧
      (contextual_bounds ⟨0, 0, 0, 0⟩ 0 0 0).min_lon
        < (contextual_bounds ⟨0, 0, 0, 0⟩ 0 0 0).max_lon :=
  ⟨le_refl 0,
    (contextual_bounds_nondegenerate ⟨0, 0, 0, 0⟩ 0 0 0 (le_refl 0) (le_refl 0)
      (le_refl 0)).1⟩

/-! ## Ring centroid (`ring_centroid`, source lines 288-307)

The source loop runs over `i in range(n - 1)` only — consecutive vertex
pairs, with no wrap-around edge from the last vertex back to the first.
Python's `ring[0]` on an empty sequence raises, so the result is an
`Option`. -/

/-- The accumulation loop of `ring_centroid`: `(a, cx, cy)` summed over the
consecutive vertex pairs `ring[i], ring[i+1]`, `i in range(n-1)`. -/
noncomputable def centroid_sums : List (ℝ × ℝ) → ℝ × ℝ × ℝ
  | (x0, y0) :: (x1, y1) :: rest =>
      let s := centroid_sums ((x1, y1) :: rest)
      let cross := x0 * y1 - x1 * y0
      (s.1 + cross, s.2.1 + (x0 + x1) * cross, s.2.2 + (y0 + y1) * cross)
  | _ => (0, 0, 0)

/-- Embedding of `ring_centroid(ring)` (source lines 288-307): fewer than 3
vertices returns `ring[0]` (`none` models the `IndexError` on an empty
ring); otherwise the accumulated `(a, cx, cy)` of consecutive edges give
the weighted centroid `(cx / (6 * (a * 0.5)), cy / (6 * (a * 0.5)))`, with a
fallback to the arithmetic vertex mean when `|a| < 1e-12`. -/
noncomputable def ring_centroid (ring : List (ℝ × ℝ)) : Option (ℝ × ℝ) :=
  if ring.length < 3 then ring.head?
  else
    let s := centroid_sums ring
    if |s.1| < 1e-12 then
      some ((ring.map Prod.fst).sum / ring.length, (ring.map Prod.snd).sum / ring.length)
    else
      some (s.2.1 / (6 * (s.1 * 0.5)), s.2.2 / (6 * (s.1 * 0.5)))

/-- Modelled from the spec: the signed-area-weighted polygon centroid of
the ring *treated as closed*, i.e. with the wrap-around edge from the last
vertex back to the first included in the sums (realized by appending the
first vertex at the end), with the same numerically-zero-area fallback to
the arithmetic mean of the vertices. -/
noncomputable def spec_closed_centroid (ring : List (ℝ × ℝ)) : Option (ℝ × ℝ) :=
  match ring with
  | [] => none
  | p :: rest =>
      if (p :: rest).length < 3 then some p
      else
        let s := centroid_sums ((p :: rest) ++ [p])
        if |s.1| < 1e-12 then
          some (((p :: rest).map Prod.fst).sum / (p :: rest).length,
            ((p :: rest).map Prod.snd).sum / (p :: rest).length)
        else
          some (s.2.1 / (6 * (s.1 * 0.5)), s.2.2 / (6 * (s.1 * 0.5)))

lemma centroid_sums_concat (p q : ℝ × ℝ) (l : List (ℝ × ℝ)) :
    centroid_sums ((p :: l) ++ [q]) =
      ((centroid_sums (p :: l)).1
          + ((l.getLastD p).1 * q.2 - q.1 * (l.getLastD p).2),
        (centroid_sums (p :: l)).2.1
          + ((l.getLastD p).1 + q.1) * ((l.getLastD p).1 * q.2 - q.1 * (l.getLastD p).2),
        (centroid_sums (p :: l)).2.2
          + ((l.getLastD p).2 + q.2) * ((l.getLastD p).1 * q.2 - q.1 * (l.getLastD p).2)) := by
  induction l generalizing p with
  | nil =>
      obtain ⟨px, py⟩ := p
      obtain ⟨qx, qy⟩ := q
      simp [centroid_sums]
  | cons r rest ih =>
      obtain ⟨px, py⟩ := p
      obtain ⟨rx, ry⟩ := r
      have ih2 := ih (rx, ry)
      simp only [List.cons_append] at ih2
      simp only [List.cons_append, centroid_sums, List.getLastD_cons, List.append_eq]
      rw [ih2]
      simp only [List.getLastD_cons, Prod.mk.injEq]
      refine ⟨by ring, by ring, by ring⟩

/-- C3 counterexample: on the axis-aligned unit square with corner `(1,1)`
— a perfect regular polygon, listed without repeating the first vertex —
`ring_centroid` returns `(11/9, 4/3)`, while the spec's closed formula
(and the arithmetic vertex mean) give `(3/2, 3/2)`: the missing
wrap-around edge changes the result. -/
theorem ring_centroid_counterexample :
    ring_centroid [((1 : ℝ), (1 : ℝ)), (2, 1), (2, 2), (1, 2)] = some (11 / 9, 4 / 3) ∧
      spec_closed_centroid [((1 : ℝ), (1 : ℝ)), (2, 1), (2, 2), (1, 2)]
        = some (3 / 2, 3 / 2) ∧
      (([((1 : ℝ), (1 : ℝ)), (2, 1), (2, 2), (1, 2)].map Prod.fst).sum / 4,
          ([((1 : ℝ), (1 : ℝ)), (2, 1), (2, 2), (1, 2)].map Prod.snd).sum / 4)
        = (((3 : ℝ) / 2), ((3 : ℝ) / 2)) ∧
      some (((11 : ℝ) / 9, (4 : ℝ) / 3)) ≠ some (((3 : ℝ) / 2, (3 : ℝ) / 2)) := by
  have hsums : centroid_sums [((1 : ℝ), (1 : ℝ)), (2, 1), (2, 2), (1, 2)]
      = (3, 11, 12) := by
    simp only [centroid_sums]
    norm_num
  have hsums2 : centroid_sums ([((1 : ℝ), (1 : ℝ)), (2, 1), (2, 2), (1, 2)] ++ [(1, 1)])
      = (2, 9, 9) := by
    simp only [List.cons_append, List.nil_append, centroid_sums]
    norm_num
  refine ⟨?_, ?_, by norm_num, ?_⟩
  · rw [ring_centroid, if_neg (by norm_num), hsums]
    rw [if_neg (by rw [abs_of_nonneg] <;> norm_num)]
    norm_num
  · rw [spec_closed_centroid]
    rw [if_neg (by norm_num), hsums2]
    rw [if_neg (by rw [abs_of_nonneg] <;> norm_num)]
    norm_num
  · intro h
    rw [Option.some.injEq, Prod.mk.injEq] at h
    have := h.1
    norm_num at this

lemma last_opt_cons {α : Type} (a : α) (l : List α) :
    (a :: l).getLast? = some (l.getLastD a) := by
  induction l generalizing a with
  | nil => rfl
  | cons b t ih => rw [List.getLast?_cons_cons, ih, List.getLastD_cons]

lemma ring_centroid_eq_of_big (ring : List (ℝ × ℝ)) (h : ¬ ring.length < 3) :
    ring_centroid ring =
      if |(centroid_sums ring).1| < 1e-12 then
        some ((ring.map Prod.fst).sum / ring.length, (ring.map Prod.snd).sum / ring.length)
      else
        some ((centroid_sums ring).2.1 / (6 * ((centroid_sums ring).1 * 0.5)),
          (centroid_sums ring).2.2 / (6 * ((centroid_sums ring).1 * 0.5))) := by
  rw [ring_centroid, if_neg h]

lemma spec_closed_centroid_eq_of_big (p : ℝ × ℝ) (rest : List (ℝ × ℝ))
    (h : ¬ (p :: rest).length < 3) :
    spec_closed_centroid (p :: rest) =
      if |(centroid_sums ((p :: rest) ++ [p])).1| < 1e-12 then
        some (((p :: rest).map Prod.fst).sum / (p :: rest).length,
          ((p :: rest).map Prod.snd).sum / (p :: rest).length)
      else
        some ((centroid_sums ((p :: rest) ++ [p])).2.1
            / (6 * ((centroid_sums ((p :: rest) ++ [p])).1 * 0.5)),
          (centroid_sums ((p :: rest) ++ [p])).2.2
            / (6 * ((centroid_sums ((p :: rest) ++ [p])).1 * 0.5))) := by
  rw [spec_closed_centroid, if_neg h]

/-- C3 (amended): `ring_centroid` sums over consecutive edges only, omitting
the wrap-around edge from the last vertex back to the first, so for every
ring of at least 3 vertices that is *explicitly closed* (first vertex equal
to the last, as GeoJSON rings are) it agrees with the spec's closed-ring
signed-area-weighted centroid; and whenever the accumulated doubled signed
area is numerically zero (`|a| < 1e-12`, e.g. collinear rings) it returns
the arithmetic mean of the vertices.  For a regular polygon listed without
the repeated closing vertex the two formulas differ (see the
counterexample). -/
theorem ring_centroid_closed_matches_spec (ring : List (ℝ × ℝ))
    (h3 : 3 ≤ ring.length) (hclosed : ring.head? = ring.getLast?) :
    ring_centroid ring = spec_closed_centroid ring ∧
      (|(centroid_sums ring).1| < 1e-12 →
        ring_centroid ring = some ((ring.map Prod.fst).sum / ring.length,
          (ring.map Prod.snd).sum / ring.length)) := by
  cases ring with
  | nil => simp at h3
  | cons p tail =>
      have hbig : ¬ (p :: tail).length < 3 := by omega
      have hlast : tail.getLastD p = p := by
        have h := hclosed
        rw [List.head?_cons, last_opt_cons] at h
        exact (Option.some.injEq _ _).mp h.symm
      have hs : centroid_sums ((p :: tail) ++ [p]) = centroid_sums (p :: tail) := by
        cases tail with
        | nil => simp at h3
        | cons r rest2 =>
            rw [centroid_sums_concat]
            rw [List.getLastD_cons] at hlast
            rw [List.getLastD_cons, hlast]
            obtain ⟨px, py⟩ := p
            simp only
            have hz : px * py - px * py = 0 := sub_self _
            rw [hz]
            simp
      constructor
      · rw [ring_centroid_eq_of_big _ hbig, spec_closed_centroid_eq_of_big _ _ hbig, hs]
      · intro hsmall
        rw [ring_centroid_eq_of_big _ hbig, if_pos hsmall]

/-- C3 witness: the amended theorem applied to the explicitly closed unit
square (first vertex repeated at the end). -/
theorem ring_centroid_closed_matches_spec_witness :
    (3 ≤ ([((1 : ℝ), (1 : ℝ)), (2, 1), (2, 2), (1, 2), (1, 1)] : List (ℝ × ℝ)).length) ∧
      ring_centroid [((1 : ℝ), (1 : ℝ)), (2, 1), (2, 2), (1, 2), (1, 1)] =
        spec_closed_centroid [((1 : ℝ), (1 : ℝ)), (2, 1), (2, 2), (1, 2), (1, 1)] :=
  ⟨by norm_num,
    (ring_centroid_closed_matches_spec [((1 : ℝ), (1 : ℝ)), (2, 1), (2, 2), (1, 2), (1, 1)]
      (by norm_num) rfl).1⟩

/-! ## Scale bar selection (`draw_scale_bar`, source lines 333-345)

Only the numeric selection logic is embedded: the ground resolution
`meters_per_px` and the loop choosing the bar distance.  The drawing calls
have no bearing on the claims. -/

/-- Ground resolution used by `draw_scale_bar`:
`156543.03392 * cos(radians(center_lat)) / 2 ** zoom`. -/
noncomputable def meters_per_px (center_lat : ℝ) (zoom : ℕ) : ℝ :=
  156543.03392 * Real.cos (center_lat * π / 180) / 2 ^ zoom

/-- The candidate bar distances `options_m` of `draw_scale_bar`. -/
noncomputable def scale_options : List ℝ := [50, 100, 200, 250, 500, 1000, 2000, 5000, 10000]

/-- The selection loop of `draw_scale_bar`: `chosen` starts at
`options_m[0] = 50` and is overwritten by every candidate whose pixel
length `m / meters_per_px` is at most the 160 px target. -/
noncomputable def chosen_scale (mpp : ℝ) : ℝ :=
  scale_options.foldl (fun chosen m => if m / mpp ≤ 160 then m else chosen) 50

lemma chosen_scale_spec (mpp : ℝ) (hpos : 0 < mpp) (hfit : 50 / mpp ≤ 160) :
    chosen_scale mpp ∈ scale_options ∧ chosen_scale mpp / mpp ≤ 160 ∧
      ∀ m ∈ scale_options, m / mpp ≤ 160 → m ≤ chosen_scale mpp := by
  have hdiv : ∀ m : ℝ, m / mpp ≤ 160 ↔ m ≤ 160 * mpp := fun m => div_le_iff₀ hpos
  have h50 : (50 : ℝ) ≤ 160 * mpp := (hdiv 50).mp hfit
  rcases le_or_lt 10000 (160 * mpp) with h10000 | h10000
  · have e : chosen_scale mpp = 10000 := by
      simp only [chosen_scale, scale_options, List.foldl_cons, List.foldl_nil]
      rw [if_pos ((hdiv 10000).mpr h10000)]
    refine ⟨by rw [e]; norm_num [scale_options], by rw [e, hdiv 10000]; linarith, ?_⟩
    intro m hm hfm
    rw [e]
    fin_cases hm <;> linarith
  · rcases le_or_lt 5000 (160 * mpp) with h5000 | h5000
    · have e : chosen_scale mpp = 5000 := by
        simp only [chosen_scale, scale_options, List.foldl_cons, List.foldl_nil]
        rw [if_neg (by rw [hdiv 10000]; exact not_le.mpr h10000),
          if_pos ((hdiv 5000).mpr h5000)]
      refine ⟨by rw [e]; norm_num [scale_options], by rw [e, hdiv 5000]; linarith, ?_⟩
      intro m hm hfm
      rw [e]
      rw [hdiv m] at hfm
      fin_cases hm <;> linarith
    · rcases le_or_lt 2000 (160 * mpp) with h2000 | h2000
      · have e : chosen_scale mpp = 2000 := by
          simp only [chosen_scale, scale_options, List.foldl_cons, List.foldl_nil]
          rw [if_neg (by rw [hdiv 10000]; exact not_le.mpr h10000),
            if_neg (by rw [hdiv 5000]; exact not_le.mpr h5000),
            if_pos ((hdiv 2000).mpr h2000)]
        refine ⟨by rw [e]; norm_num [scale_options], by rw [e, hdiv 2000]; linarith, ?_⟩
        intro m hm hfm
        rw [e]
        rw [hdiv m] at hfm
        fin_cases hm <;> linarith
      · rcases le_or_lt 1000 (160 * mpp) with h1000 | h1000
        · have e : chosen_scale mpp = 1000 := by
            simp only [chosen_scale, scale_options, List.foldl_cons, List.foldl_nil]
            rw [if_neg (by rw [hdiv 10000]; exact not_le.mpr h10000),
              if_neg (by rw [hdiv 5000]; exact not_le.mpr h5000),
              if_neg (by rw [hdiv 2000]; exact not_le.mpr h2000),
              if_pos ((hdiv 1000).mpr h1000)]
          refine ⟨by rw [e]; norm_num [scale_options], by rw [e, hdiv 1000]; linarith, ?_⟩
          intro m hm hfm
          rw [e]
          rw [hdiv m] at hfm
          fin_cases hm <;> linarith
        · rcases le_or_lt 500 (160 * mpp) with h500 | h500
          · have e : chosen_scale mpp = 500 := by
              simp only [chosen_scale, scale_options, List.foldl_cons, List.foldl_nil]
              rw [if_neg (by rw [hdiv 10000]; exact not_le.mpr h10000),
                if_neg (by rw [hdiv 5000]; exact not_le.mpr h5000),
                if_neg (by rw [hdiv 2000]; exact not_le.mpr h2000),
                if_neg (by rw [hdiv 1000]; exact not_le.mpr h1000),
                if_pos ((hdiv 500).mpr h500)]
            refine ⟨by rw [e]; norm_num [scale_options], by rw [e, hdiv 500]; linarith, ?_⟩
            intro m hm hfm
            rw [e]
            rw [hdiv m] at hfm
            fin_cases hm <;> linarith
          · rcases le_or_lt 250 (160 * mpp) with h250 | h250
            · have e : chosen_scale mpp = 250 := by
                simp only [chosen_scale, scale_options, List.foldl_cons, List.foldl_nil]
                rw [if_neg (by rw [hdiv 10000]; exact not_le.mpr h10000),
                  if_neg (by rw [hdiv 5000]; exact not_le.mpr h5000),
                  if_neg (by rw [hdiv 2000]; exact not_le.mpr h2000),
                  if_neg (by rw [hdiv 1000]; exact not_le.mpr h1000),
                  if_neg (by rw [hdiv 500]; exact not_le.mpr h500),
                  if_pos ((hdiv 250).mpr h250)]
              refine ⟨by rw [e]; norm_num [scale_options], by rw [e, hdiv 250]; linarith, ?_⟩
              intro m hm hfm
              rw [e]
              rw [hdiv m] at hfm
              fin_cases hm <;> linarith
            · rcases le_or_lt 200 (160 * mpp) with h200 | h200
              · have e : chosen_scale mpp = 200 := by
                  simp only [chosen_scale, scale_options, List.foldl_cons, List.foldl_nil]
                  rw [if_neg (by rw [hdiv 10000]; exact not_le.mpr h10000),
                    if_neg (by rw [hdiv 5000]; exact not_le.mpr h5000),
                    if_neg (by rw [hdiv 2000]; exact not_le.mpr h2000),
                    if_neg (by rw [hdiv 1000]; exact not_le.mpr h1000),
                    if_neg (by rw [hdiv 500]; exact not_le.mpr h500),
                    if_neg (by rw [hdiv 250]; exact not_le.mpr h250),
                    if_pos ((hdiv 200).mpr h200)]
                refine ⟨by rw [e]; norm_num [scale_options], by rw [e, hdiv 200]; linarith, ?_⟩
                intro m hm hfm
                rw [e]
                rw [hdiv m] at hfm
                fin_cases hm <;> linarith
              · rcases le_or_lt 100 (160 * mpp) with h100 | h100
                · have e : chosen_scale mpp = 100 := by
                    simp only [chosen_scale, scale_options, List.foldl_cons, List.foldl_nil]
                    rw [if_neg (by rw [hdiv 10000]; exact not_le.mpr h10000),
                      if_neg (by rw [hdiv 5000]; exact not_le.mpr h5000),
                      if_neg (by rw [hdiv 2000]; exact not_le.mpr h2000),
                      if_neg (by rw [hdiv 1000]; exact not_le.mpr h1000),
                      if_neg (by rw [hdiv 500]; exact not_le.mpr h500),
                      if_neg (by rw [hdiv 250]; exact not_le.mpr h250),
                      if_neg (by rw [hdiv 200]; exact not_le.mpr h200),
                      if_pos ((hdiv 100).mpr h100)]
                  refine ⟨by rw [e]; norm_num [scale_options], by rw [e, hdiv 100]; linarith, ?_⟩
                  intro m hm hfm
                  rw [e]
                  rw [hdiv m] at hfm
                  fin_cases hm <;> linarith
                · have e : chosen_scale mpp = 50 := by
                    simp only [chosen_scale, scale_options, List.foldl_cons, List.foldl_nil]
                    rw [if_neg (by rw [hdiv 10000]; exact not_le.mpr h10000),
                      if_neg (by rw [hdiv 5000]; exact not_le.mpr h5000),
                      if_neg (by rw [hdiv 2000]; exact not_le.mpr h2000),
                      if_neg (by rw [hdiv 1000]; exact not_le.mpr h1000),
                      if_neg (by rw [hdiv 500]; exact not_le.mpr h500),
                      if_neg (by rw [hdiv 250]; exact not_le.mpr h250),
                      if_neg (by rw [hdiv 200]; exact not_le.mpr h200),
                      if_neg (by rw [hdiv 100]; exact not_le.mpr h100),
                      if_pos ((hdiv 50).mpr h50)]
                  refine ⟨by rw [e]; norm_num [scale_options], by rw [e]; exact hfit, ?_⟩
                  intro m hm hfm
                  rw [e]
                  rw [hdiv m] at hfm
                  fin_cases hm <;> linarith

lemma meters_per_px_pos (center_lat : ℝ) (zoom : ℕ) (hlat : |center_lat| < 90) :
    0 < meters_per_px center_lat zoom := by
  have hπ := Real.pi_pos
  rw [abs_lt] at hlat
  have h1 : center_lat * π / 180 ∈ Set.Ioo (-(π / 2)) (π / 2) := by
    rw [Set.mem_Ioo]
    constructor
    · nlinarith [mul_pos (show (0 : ℝ) < center_lat + 90 by linarith) hπ]
    · nlinarith [mul_pos (show (0 : ℝ) < 90 - center_lat by linarith) hπ]
  have hcos := Real.cos_pos_of_mem_Ioo h1
  have h2 : (0 : ℝ) < 2 ^ zoom := by positivity
  rw [meters_per_px]
  exact div_pos (mul_pos (by norm_num) hcos) h2

/-- C7 (amended): for every zoom in `[10, 18]` and reference latitude of
absolute value below 90 degrees, *provided the smallest candidate fits*
(`50 / meters_per_px <= 160`), `draw_scale_bar` selects from the ascending
candidate list `[50, 100, 200, 250, 500, 1000, 2000, 5000, 10000]` the
largest distance whose pixel length is at most the 160 px target, and that
pixel length does not exceed 160 px.  When no candidate fits, `chosen`
keeps its initial value `options_m[0] = 50` and its pixel length exceeds
the target (see the counterexample). -/
theorem draw_scale_bar_largest_fitting (center_lat : ℝ) (zoom : ℕ)
    (hz1 : 10 ≤ zoom) (hz2 : zoom ≤ 18) (hlat : |center_lat| < 90)
    (hfit : 50 / meters_per_px center_lat zoom ≤ 160) :
    chosen_scale (meters_per_px center_lat zoom) ∈ scale_options ∧
      chosen_scale (meters_per_px center_lat zoom) / meters_per_px center_lat zoom ≤ 160 ∧
      ∀ m ∈ scale_options, m / meters_per_px center_lat zoom ≤ 160 →
        m ≤ chosen_scale (meters_per_px center_lat zoom) :=
  chosen_scale_spec (meters_per_px center_lat zoom)
    (meters_per_px_pos center_lat zoom hlat) hfit

/-- C7 counterexample: at zoom 18 and reference latitude 60 degrees (within
the claim's ranges) no candidate fits: `50 / meters_per_px ~ 167.4 px`.
The loop then leaves `chosen` at its initial value 50, whose pixel
length exceeds the 160 px target — refuting the claim that the selected
distance's pixel length never exceeds 160 px. -/
theorem draw_scale_bar_counterexample :
    chosen_scale (meters_per_px 60 18) = 50 ∧
      160 < 50 / meters_per_px 60 18 := by
  have hcos : Real.cos ((60 : ℝ) * π / 180) = 1 / 2 := by
    rw [show (60 : ℝ) * π / 180 = π / 3 by ring, Real.cos_pi_div_three]
  have hmpp : meters_per_px 60 18 = 156543.03392 / 2 / 262144 := by
    rw [meters_per_px, hcos]
    norm_num
  have hneg : ∀ m : ℝ, 50 ≤ m → ¬ (m / meters_per_px 60 18 ≤ 160) := by
    intro m hm
    rw [hmpp, div_le_iff₀ (by norm_num)]
    intro hmle
    nlinarith
  constructor
  · simp only [chosen_scale, scale_options, List.foldl_cons, List.foldl_nil]
    rw [if_neg (hneg 10000 (by norm_num)), if_neg (hneg 5000 (by norm_num)),
      if_neg (hneg 2000 (by norm_num)), if_neg (hneg 1000 (by norm_num)),
      if_neg (hneg 500 (by norm_num)), if_neg (hneg 250 (by norm_num)),
      if_neg (hneg 200 (by norm_num)), if_neg (hneg 100 (by norm_num)),
      if_neg (hneg 50 (by norm_num))]
  · rw [hmpp, lt_div_iff₀ (by norm_num)]
    norm_num

/-- C7 witness: the amended theorem applied at zoom 10 on the equator,
where the smallest candidate easily fits. -/
theorem draw_scale_bar_largest_fitting_witness :
    (50 / meters_per_px 0 10 ≤ 160) ∧ chosen_scale (meters_per_px 0 10) ∈ scale_options := by
  have hm : meters_per_px 0 10 = 156543.03392 / 1024 := by
    rw [meters_per_px, show (0 : ℝ) * π / 180 = 0 by ring, Real.cos_zero]
    norm_num
  have hfit : 50 / meters_per_px 0 10 ≤ 160 := by
    rw [hm]
    norm_num
  exact ⟨hfit, (draw_scale_bar_largest_fitting 0 10 (by norm_num) (by norm_num)
    (by rw [abs_of_nonneg le_rfl]; norm_num) hfit).1⟩

/-! ## Mercator projector and zoom choice
(`clamp_lat`, `lonlat_to_world_px`, `choose_zoom`, source lines 178-201)

The transcendental float arithmetic is modelled over the reals.  The
`for zoom in range(18, 9, -1)` search is the corresponding chain of
conditionals, with the final `return 10` as the last else. -/

/-- `TILE_SIZE = 256`. -/
noncomputable def TILE_SIZE : ℝ := 256

/-- Embedding of `clamp_lat(lat)` (source lines 178-179). -/
noncomputable def clamp_lat (lat : ℝ) : ℝ :=
  max (min lat 85.05112878) (-85.05112878)

/-- Embedding of `lonlat_to_world_px(lon, lat, zoom)` (source lines
182-189): clamp the latitude, then the spherical Web Mercator formulas with
`math.radians(lat) = lat * pi / 180`. -/
noncomputable def lonlat_to_world_px (lon lat : ℝ) (zoom : ℕ) : ℝ × ℝ :=
  let lat2 := clamp_lat lat
  let n : ℝ := 2 ^ zoom
  let x := (lon + 180.0) / 360.0 * n * TILE_SIZE
  let lat_rad := lat2 * π / 180
  let y := (1.0 - Real.log (Real.tan lat_rad + 1.0 / Real.cos lat_rad) / π) / 2.0
  (x, y * (n * TILE_SIZE))

/-- The per-zoom test of `choose_zoom` (source lines 195-199): project the
two extreme corners `(min_lon, max_lat)` and `(max_lon, min_lat)` and
require both absolute pixel spans to fit within 72% of the viewport. -/
def zoom_fits (bounds : GeoBounds) (map_width map_height : ℕ) (zoom : ℕ) : Prop :=
  |(lonlat_to_world_px bounds.max_lon bounds.min_lat zoom).1
      - (lonlat_to_world_px bounds.min_lon bounds.max_lat zoom).1| ≤ map_width * 0.72 ∧
    |(lonlat_to_world_px bounds.max_lon bounds.min_lat zoom).2
      - (lonlat_to_world_px bounds.min_lon bounds.max_lat zoom).2| ≤ map_height * 0.72

open Classical in
/-- Embedding of `choose_zoom(bounds, map_width, map_height)` (source lines
192-201): try zoom levels 18 down to 10, returning the first that fits, and
fall back to 10. -/
noncomputable def choose_zoom (bounds : GeoBounds) (map_width map_height : ℕ) : ℕ :=
  if zoom_fits bounds map_width map_height 18 then 18
  else if zoom_fits bounds map_width map_height 17 then 17
  else if zoom_fits bounds map_width map_height 16 then 16
  else if zoom_fits bounds map_width map_height 15 then 15
  else if zoom_fits bounds map_width map_height 14 then 14
  else if zoom_fits bounds map_width map_height 13 then 13
  else if zoom_fits bounds map_width map_height 12 then 12
  else if zoom_fits bounds map_width map_height 11 then 11
  else if zoom_fits bounds map_width map_height 10 then 10
  else 10

lemma choose_zoom_ge (b : GeoBounds) (w h : ℕ) : 10 ≤ choose_zoom b w h := by
  unfold choose_zoom
  split_ifs <;> norm_num

lemma choose_zoom_le (b : GeoBounds) (w h : ℕ) : choose_zoom b w h ≤ 18 := by
  unfold choose_zoom
  split_ifs <;> norm_num

lemma choose_zoom_fits_or (b : GeoBounds) (w h : ℕ) :
    zoom_fits b w h (choose_zoom b w h) ∨ choose_zoom b w h = 10 := by
  unfold choose_zoom
  split_ifs <;> first | exact Or.inl (by assumption) | exact Or.inr rfl

lemma choose_zoom_max (b : GeoBounds) (w h z : ℕ) (hz : zoom_fits b w h z)
    (hz18 : z ≤ 18) : z ≤ choose_zoom b w h := by
  unfold choose_zoom
  split_ifs with h18 h17 h16 h15 h14 h13 h12 h11 h10
  · exact hz18
  all_goals {
    have e18 : z ≠ 18 := fun e => h18 (e ▸ hz)
    first
    | omega
    | (have e17 : z ≠ 17 := fun e => h17 (e ▸ hz)
       first
       | omega
       | (have e16 : z ≠ 16 := fun e => h16 (e ▸ hz)
          first
          | omega
          | (have e15 : z ≠ 15 := fun e => h15 (e ▸ hz)
             first
             | omega
             | (have e14 : z ≠ 14 := fun e => h14 (e ▸ hz)
                first
                | omega
                | (have e13 : z ≠ 13 := fun e => h13 (e ▸ hz)
                   first
                   | omega
                   | (have e12 : z ≠ 12 := fun e => h12 (e ▸ hz)
                      first
                      | omega
                      | (have e11 : z ≠ 11 := fun e => h11 (e ▸ hz)
                         omega)))))))
  }

lemma world_x_mono (zoom : ℕ) {lon1 lon2 : ℝ} (h : lon1 ≤ lon2) (lat1 lat2 : ℝ) :
    (lonlat_to_world_px lon1 lat1 zoom).1 ≤ (lonlat_to_world_px lon2 lat2 zoom).1 := by
  simp only [lonlat_to_world_px, TILE_SIZE]
  have hn : (0 : ℝ) ≤ 2 ^ zoom := by positivity
  have h1 : (lon1 + 180) / 360 ≤ (lon2 + 180) / 360 := by linarith
  have h2 : (lon1 + 180) / 360 * 2 ^ zoom ≤ (lon2 + 180) / 360 * 2 ^ zoom :=
    mul_le_mul_of_nonneg_right h1 hn
  nlinarith

lemma tan_add_sec_eq {r : ℝ} (hr : r ∈ Set.Ioo (-(π / 2)) (π / 2)) :
    Real.tan r + 1 / Real.cos r = (1 + Real.sin r) / Real.cos r := by
  have hc : Real.cos r ≠ 0 := ne_of_gt (Real.cos_pos_of_mem_Ioo hr)
  rw [Real.tan_eq_sin_div_cos]
  field_simp
  ring

lemma sin_gt_neg_one_of_mem {r : ℝ} (hr : r ∈ Set.Ioo (-(π / 2)) (π / 2)) :
    -1 < Real.sin r := by
  have hπ := Real.pi_pos
  have hmono := Real.strictMonoOn_sin
    (Set.mem_Icc.mpr ⟨le_refl _, by linarith⟩)
    (Set.mem_Icc.mpr ⟨le_of_lt hr.1, le_of_lt hr.2⟩) hr.1
  rw [Real.sin_neg, Real.sin_pi_div_two] at hmono
  exact hmono

lemma tan_add_sec_pos {r : ℝ} (hr : r ∈ Set.Ioo (-(π / 2)) (π / 2)) :
    0 < Real.tan r + 1 / Real.cos r := by
  rw [tan_add_sec_eq hr]
  exact div_pos (by linarith [sin_gt_neg_one_of_mem hr]) (Real.cos_pos_of_mem_Ioo hr)

lemma tan_add_sec_mono {a b : ℝ} (ha : a ∈ Set.Ioo (-(π / 2)) (π / 2))
    (hb : b ∈ Set.Ioo (-(π / 2)) (π / 2)) (hab : a ≤ b) :
    Real.tan a + 1 / Real.cos a ≤ Real.tan b + 1 / Real.cos b := by
  have hπ := Real.pi_pos
  have hca := Real.cos_pos_of_mem_Ioo ha
  have hcb := Real.cos_pos_of_mem_Ioo hb
  rw [tan_add_sec_eq ha, tan_add_sec_eq hb, div_le_div_iff₀ hca hcb]
  have hs : 0 ≤ Real.sin ((b - a) / 2) :=
    Real.sin_nonneg_of_nonneg_of_le_pi (by linarith [ha.1, hb.2])
      (by linarith [ha.1, hb.2])
  have hkey : 0 ≤ Real.cos ((b - a) / 2) + Real.sin ((a + b) / 2) := by
    have h1 : Real.sin ((b - a) / 2 - π / 2) ≤ Real.sin ((a + b) / 2) := by
      apply Real.strictMonoOn_sin.monotoneOn
      · exact Set.mem_Icc.mpr ⟨by linarith [ha.1, hb.2], by linarith [ha.1, hb.2]⟩
      · exact Set.mem_Icc.mpr ⟨by linarith [ha.1, hb.1], by linarith [ha.2, hb.2]⟩
      · linarith [ha.1]
    rw [Real.sin_sub, Real.sin_pi_div_two, Real.cos_pi_div_two] at h1
    nlinarith [h1]
  have hcos_sub : Real.cos b - Real.cos a
      = -2 * Real.sin ((b + a) / 2) * Real.sin ((b - a) / 2) := Real.cos_sub_cos b a
  rw [show (b + a) / 2 = (a + b) / 2 by ring] at hcos_sub
  have hsin_two := Real.sin_two_mul ((b - a) / 2)
  rw [show 2 * ((b - a) / 2) = b - a by ring] at hsin_two
  have hsin_ba : Real.sin (b - a) = Real.sin b * Real.cos a - Real.cos b * Real.sin a :=
    Real.sin_sub b a
  have h2 : Real.cos b - Real.cos a ≤ Real.sin b * Real.cos a - Real.cos b * Real.sin a := by
    rw [← hsin_ba, hsin_two, hcos_sub]
    have hexp : 0 ≤ Real.sin ((b - a) / 2) * (Real.cos ((b - a) / 2) + Real.sin ((a + b) / 2)) :=
      mul_nonneg hs hkey
    nlinarith [hexp]
  nlinarith [h2]

lemma clamp_lat_mono {lat1 lat2 : ℝ} (h : lat1 ≤ lat2) : clamp_lat lat1 ≤ clamp_lat lat2 :=
  max_le_max (min_le_min h (le_refl _)) (le_refl _)

lemma clamp_lat_lb (lat : ℝ) : -85.05112878 ≤ clamp_lat lat := le_max_right _ _

lemma clamp_lat_ub (lat : ℝ) : clamp_lat lat ≤ 85.05112878 :=
  max_le (min_le_right _ _) (by norm_num)

lemma clamp_rad_mem (lat : ℝ) : clamp_lat lat * π / 180 ∈ Set.Ioo (-(π / 2)) (π / 2) := by
  have hπ := Real.pi_pos
  have h1 := clamp_lat_lb lat
  have h2 := clamp_lat_ub lat
  constructor
  · nlinarith [mul_pos (show (0 : ℝ) < clamp_lat lat + 90 by linarith) hπ]
  · nlinarith [mul_pos (show (0 : ℝ) < 90 - clamp_lat lat by linarith) hπ]

lemma world_y_antitone (zoom : ℕ) {lat1 lat2 : ℝ} (h : lat1 ≤ lat2) (lon1 lon2 : ℝ) :
    (lonlat_to_world_px lon2 lat2 zoom).2 ≤ (lonlat_to_world_px lon1 lat1 zoom).2 := by
  have hπ := Real.pi_pos
  simp only [lonlat_to_world_px, TILE_SIZE]
  have hm1 := clamp_rad_mem lat1
  have hm2 := clamp_rad_mem lat2
  have hrle : clamp_lat lat1 * π / 180 ≤ clamp_lat lat2 * π / 180 := by
    have := clamp_lat_mono h
    have hmul : 0 ≤ (clamp_lat lat2 - clamp_lat lat1) * π :=
      mul_nonneg (by linarith) (le_of_lt hπ)
    nlinarith [hmul]
  have hlog : Real.log (Real.tan (clamp_lat lat1 * π / 180)
        + 1 / Real.cos (clamp_lat lat1 * π / 180))
      ≤ Real.log (Real.tan (clamp_lat lat2 * π / 180)
        + 1 / Real.cos (clamp_lat lat2 * π / 180)) :=
    Real.log_le_log (tan_add_sec_pos hm1) (tan_add_sec_mono hm1 hm2 hrle)
  have hinv : (0 : ℝ) ≤ π⁻¹ := inv_nonneg.mpr (le_of_lt hπ)
  have h12 : Real.log (Real.tan (clamp_lat lat1 * π / 180)
        + 1 / Real.cos (clamp_lat lat1 * π / 180)) / π
      ≤ Real.log (Real.tan (clamp_lat lat2 * π / 180)
        + 1 / Real.cos (clamp_lat lat2 * π / 180)) / π := by
    rw [div_eq_mul_inv, div_eq_mul_inv]
    exact mul_le_mul_of_nonneg_right hlog hinv
  have hnT : (0 : ℝ) ≤ (2 : ℝ) ^ zoom * 256 := by positivity
  apply mul_le_mul_of_nonneg_right _ hnT
  linarith

lemma zoom_fits_mono (b1 b2 : GeoBounds) (w h z : ℕ)
    (h1 : b2.min_lon ≤ b1.min_lon) (h2 : b1.max_lon ≤ b2.max_lon)
    (h3 : b2.min_lat ≤ b1.min_lat) (h4 : b1.max_lat ≤ b2.max_lat)
    (h5 : b1.min_lon ≤ b1.max_lon) (h6 : b1.min_lat ≤ b1.max_lat)
    (hf : zoom_fits b2 w h z) : zoom_fits b1 w h z := by
  obtain ⟨hfw, hfh⟩ := hf
  constructor
  · have e1 : (lonlat_to_world_px b1.min_lon b1.max_lat z).1
        ≤ (lonlat_to_world_px b1.max_lon b1.min_lat z).1 := world_x_mono z h5 _ _
    have e2 : (lonlat_to_world_px b2.min_lon b2.max_lat z).1
        ≤ (lonlat_to_world_px b2.max_lon b2.min_lat z).1 :=
      world_x_mono z (by linarith) _ _
    rw [abs_of_nonneg (sub_nonneg.mpr e1)]
    rw [abs_of_nonneg (sub_nonneg.mpr e2)] at hfw
    have a1 : (lonlat_to_world_px b2.min_lon b2.max_lat z).1
        ≤ (lonlat_to_world_px b1.min_lon b1.max_lat z).1 := world_x_mono z h1 _ _
    have a2 : (lonlat_to_world_px b1.max_lon b1.min_lat z).1
        ≤ (lonlat_to_world_px b2.max_lon b2.min_lat z).1 := world_x_mono z h2 _ _
    linarith
  · have e1 : (lonlat_to_world_px b1.min_lon b1.max_lat z).2
        ≤ (lonlat_to_world_px b1.max_lon b1.min_lat z).2 := world_y_antitone z h6 _ _
    have e2 : (lonlat_to_world_px b2.min_lon b2.max_lat z).2
        ≤ (lonlat_to_world_px b2.max_lon b2.min_lat z).2 :=
      world_y_antitone z (by linarith) _ _
    rw [abs_of_nonneg (sub_nonneg.mpr e1)]
    rw [abs_of_nonneg (sub_nonneg.mpr e2)] at hfh
    have a1 : (lonlat_to_world_px b1.max_lon b1.min_lat z).2
        ≤ (lonlat_to_world_px b2.max_lon b2.min_lat z).2 := world_y_antitone z h3 _ _
    have a2 : (lonlat_to_world_px b2.min_lon b2.max_lat z).2
        ≤ (lonlat_to_world_px b1.min_lon b1.max_lat z).2 := world_y_antitone z h4 _ _
    linarith

/-- C6: `choose_zoom` is monotone non-increasing in bounding-box span: for
every viewport size, if the bounds `b2` contain the (well-formed) bounds
`b1` — in particular when `b2` doubles `b1`'s spans about the same center —
then the zoom chosen for `b2` is never strictly higher than the zoom chosen
for `b1`. -/
theorem choose_zoom_antitone (b1 b2 : GeoBounds) (w h : ℕ)
    (h1 : b2.min_lon ≤ b1.min_lon) (h2 : b1.max_lon ≤ b2.max_lon)
    (h3 : b2.min_lat ≤ b1.min_lat) (h4 : b1.max_lat ≤ b2.max_lat)
    (h5 : b1.min_lon ≤ b1.max_lon) (h6 : b1.min_lat ≤ b1.max_lat) :
    choose_zoom b2 w h ≤ choose_zoom b1 w h := by
  rcases choose_zoom_fits_or b2 w h with hf | h10
  · exact choose_zoom_max b1 w h _
      (zoom_fits_mono b1 b2 w h _ h1 h2 h3 h4 h5 h6 hf) (choose_zoom_le b2 w h)
  · rw [h10]
    exact choose_zoom_ge b1 w h

/-- C6 witness: the monotonicity theorem applied to the unit box and a box
containing it, over an 1800 px square viewport. -/
theorem choose_zoom_antitone_witness :
    ((-1 : ℝ) ≤ 0 ∧ (1 : ℝ) ≤ 2 ∧ (0 : ℝ) ≤ 1) ∧
      choose_zoom ⟨-1, -1, 2, 2⟩ 1800 1800 ≤ choose_zoom ⟨0, 0, 1, 1⟩ 1800 1800 :=
  ⟨⟨by norm_num, by norm_num, by norm_num⟩,
    choose_zoom_antitone ⟨0, 0, 1, 1⟩ ⟨-1, -1, 2, 2⟩ 1800 1800 (by norm_num) (by norm_num)
      (by norm_num) (by norm_num) (by norm_num) (by norm_num)⟩
